import Mathlib

/-!
Shallow embedding of `src/lib/simplifyExpressionNode.js` (mathsteps): the
rewrite orchestration engine that steps through simplifying an expression.

The engine is parametric in its collaborators (the nine rewrite strategies,
the normalizers `flattenOperands` / `removeUnnecessaryParens`, the
unsupported-shape detector `hasUnsupportedNodes`, the renderer `print`, and
the `NodeStatus` utilities), which the source file imports from modules that
are not part of the engine itself.  They are modelled as an abstract record
of pure functions over an abstract tree type, matching the collaborator
contracts of the specification.  Trees are values: `clone` is the identity.

Console output (`console.log` / `console.error`) is modelled explicitly:
every function that logs returns, besides its value, the ordered list of
lines it printed, so that statements about the debug flag and about the
advisory "infinite loop" diagnostic are expressible.
-/

/-- Modelled from the spec: the Change Record (`NodeStatus` in the source,
whose defining module `lib/util/NodeStatus.js` is outside the engine file):
a change-kind tag, the trees before and after the rewrite, whether a rewrite
actually occurred, and the ordered nested sub-rewrites. -/
structure NodeStatus (Tree : Type) where
  changeType : String
  oldNode : Tree
  newNode : Tree
  changed : Bool
  substeps : List (NodeStatus Tree)

/-- Modelled from the spec: `NodeStatus.hasChanged()` reports whether the
record describes an actual rewrite. -/
def NodeStatus.hasChanged {Tree : Type} (ns : NodeStatus Tree) : Bool :=
  ns.changed

/-- Modelled from the spec: `NodeStatus.noChange(node)`, the no-change
record wrapping the given tree. -/
def NodeStatus.noChange {Tree : Type} (node : Tree) : NodeStatus Tree :=
  ⟨"NO_CHANGE", node, node, false, []⟩

/-- Modelled from the spec: `NodeStatus.reset()` clears the record's
descriptive state; the trees it carries are untouched (the driver reads
`newNode` right after resetting). -/
def NodeStatus.reset {Tree : Type} (ns : NodeStatus Tree) : NodeStatus Tree :=
  { ns with changeType := "NO_CHANGE", changed := false, substeps := [] }

/-- The output-facing Step Record pushed by `addStep`: change kind, old and
new trees, recursively built substeps, and the textual rendering. -/
structure Step (Tree : Type) where
  changeType : String
  oldNode : Tree
  newNode : Tree
  substeps : List (Step Tree)
  asciimath : String

/-- The external collaborators of `simplifyExpressionNode.js`, as pure
functions: the two normalizer passes, the unsupported-shape detector, the
renderer (`print node` and the `print(node, false, true)` variant used for
the debug banner), and the nine rewrite strategies in the order they are
required in the source. -/
structure Collab (Tree : Type) where
  flattenOperands : Tree → Tree
  removeUnnecessaryParens : Tree → Tree
  hasUnsupportedNodes : Tree → Bool
  print : Tree → String
  printDebug : Tree → String
  simplifyBasicsSearch : Tree → NodeStatus Tree
  simplifyDivisionSearch : Tree → NodeStatus Tree
  simplifyFractionsSearch : Tree → NodeStatus Tree
  evaluateArithmeticSearch : Tree → NodeStatus Tree
  collectAndCombineSearch : Tree → NodeStatus Tree
  breakUpNumeratorSearch : Tree → NodeStatus Tree
  multiplyFractionsSearch : Tree → NodeStatus Tree
  distributeSearch : Tree → NodeStatus Tree
  evaluateFunctionsSearch : Tree → NodeStatus Tree

/-- The `MAX_STEP_COUNT` constant of `stepThroughExpression`. -/
def MAX_STEP_COUNT : Nat := 20

/-- The `simplificationTreeSearches` array built inside `step`
(lines 66-87 of the source), in source order. -/
def simplificationTreeSearches {Tree : Type} (c : Collab Tree) :
    List (Tree → NodeStatus Tree) :=
  [c.simplifyBasicsSearch,
   c.simplifyDivisionSearch,
   c.simplifyFractionsSearch,
   c.evaluateArithmeticSearch,
   c.collectAndCombineSearch,
   c.breakUpNumeratorSearch,
   c.multiplyFractionsSearch,
   c.distributeSearch,
   c.evaluateFunctionsSearch]

/-- The `for` loop of `step` (lines 89-104): try each search in order; on a
change, strip redundant parens, flatten, store the (cloned) tree in the
record and return it; otherwise thread the stripped-and-flattened tree to
the next search.  With the empty list the loop falls through to
`NodeStatus.noChange(node)`. -/
def stepTrySearches {Tree : Type} (c : Collab Tree)
    (searches : List (Tree → NodeStatus Tree)) (node : Tree) :
    NodeStatus Tree :=
  match searches with
  | [] => NodeStatus.noChange node
  | s :: rest =>
      let nodeStatus := s node
      let node1 := c.removeUnnecessaryParens nodeStatus.newNode
      if nodeStatus.hasChanged then
        { nodeStatus with newNode := c.flattenOperands node1 }
      else
        stepTrySearches c rest (c.flattenOperands node1)

/-- Embedding of `step` (lines 60-105): flatten and strip the input, then run the search
loop over `simplificationTreeSearches`. -/
def step {Tree : Type} (c : Collab Tree) (node : Tree) : NodeStatus Tree :=
  let node := c.flattenOperands node
  let node := c.removeUnnecessaryParens node
  stepTrySearches c (simplificationTreeSearches c) node

mutual

/-- Embedding of `addStep` (lines 109-130): recursively build the substep records from
the status's substeps (accumulator pattern of the source's `forEach`), then
push the record with parens-stripped `oldNode` and `newNode` and the
rendering of `newNode`; the second component is the console output (the two
debug lines, emitted only when `debug` is set, after the substeps' own
output). -/
def addStep {Tree : Type} (c : Collab Tree) (debug : Bool)
    (steps : List (Step Tree)) (ns : NodeStatus Tree) :
    List (Step Tree) × List String :=
  match ns with
  | ⟨changeType, oldNode, newNode, _, substeps⟩ =>
      let sub := addStepFold c debug ([], []) substeps
      let pushed : Step Tree :=
        ⟨changeType, c.removeUnnecessaryParens oldNode,
          c.removeUnnecessaryParens newNode, sub.1, c.print newNode⟩
      let log := if debug then [changeType, c.print newNode ++ "\n"] else []
      (steps ++ [pushed], sub.2 ++ log)
termination_by structural ns

/-- The `forEach` of `addStep`: fold `addStep` over the substep statuses,
threading the accumulated substep records and concatenating console
output. -/
def addStepFold {Tree : Type} (c : Collab Tree) (debug : Bool)
    (acc : List (Step Tree) × List String)
    (l : List (NodeStatus Tree)) : List (Step Tree) × List String :=
  match l with
  | [] => acc
  | ss :: rest =>
      let r := addStep c debug acc.1 ss
      addStepFold c debug (r.1, acc.2 ++ r.2) rest
termination_by structural l

end

/-- The `console.error` line of the safety valve (lines 49-50). -/
def infiniteLoopMsg (originalExpressionStr : String) : String :=
  "Math error: Potential infinite loop for expression: " ++
    originalExpressionStr ++ ", returning no steps"

/-- The `while` loop of `stepThroughExpression` (lines 42-53).  `remaining`
mirrors `MAX_STEP_COUNT - iters`, so the source's post-increment test
`iters++ === MAX_STEP_COUNT` is `remaining = 0`; when it fires the whole
accumulated `steps` list is discarded and `[]` is returned, with the
diagnostic appended to the console output. -/
def simplifyLoop {Tree : Type} (c : Collab Tree) (debug : Bool)
    (originalExpressionStr : String) (nodeStatus : NodeStatus Tree)
    (steps : List (Step Tree)) (remaining : Nat) :
    List (Step Tree) × List String :=
  if nodeStatus.hasChanged then
    let r := addStep c debug steps nodeStatus
    let next := step c nodeStatus.reset.newNode
    match remaining with
    | 0 => (([] : List (Step Tree)),
        r.2 ++ [infiniteLoopMsg originalExpressionStr])
    | remaining' + 1 =>
        let res := simplifyLoop c debug originalExpressionStr next r.1
          remaining'
        (res.1, r.2 ++ res.2)
  else (steps, [])

/-- Embedding of `stepThroughExpression` (lines 24-56): emit the debug banner when
`debug` is set, return `[]` on unsupported input, otherwise run the
fixed-point loop starting from `step node` with `MAX_STEP_COUNT` iterations
remaining.  First component: the returned steps; second: console output. -/
def stepThroughExpression {Tree : Type} (c : Collab Tree) (node : Tree)
    (debug : Bool) : List (Step Tree) × List String :=
  let debugLog :=
    if debug then ["\n\nSimplifying: " ++ c.printDebug node] else []
  if c.hasUnsupportedNodes node then ([], debugLog)
  else
    let originalExpressionStr := c.print node
    let res := simplifyLoop c debug originalExpressionStr (step c node) []
      MAX_STEP_COUNT
    (res.1, debugLog ++ res.2)

/-- Ghost observer of the driver loop: the `NodeStatus` returned by the
final call to `step` that the loop of `stepThroughExpression` performs (the
loop body computes `step` once more before testing the iteration bound, so
at the bound the observed status is that last dispatcher result). -/
def driverLastStatus {Tree : Type} (c : Collab Tree)
    (nodeStatus : NodeStatus Tree) (remaining : Nat) : NodeStatus Tree :=
  if nodeStatus.hasChanged then
    let next := step c nodeStatus.reset.newNode
    match remaining with
    | 0 => next
    | remaining' + 1 => driverLastStatus c next remaining'
  else nodeStatus

mutual

/-- Specification-side Step Record builder (spec §4.3), stated for the
refinement claims about `addStep`: strip redundant grouping from both
trees, build the substeps recursively in order, and render `after`. -/
def buildStepSpec {Tree : Type} (c : Collab Tree) (ns : NodeStatus Tree) :
    Step Tree :=
  match ns with
  | ⟨changeType, oldNode, newNode, _, substeps⟩ =>
      ⟨changeType, c.removeUnnecessaryParens oldNode,
        c.removeUnnecessaryParens newNode, buildStepSpecList c substeps,
        c.print newNode⟩
termination_by structural ns

/-- Specification-side builder for a list of substep statuses, in order. -/
def buildStepSpecList {Tree : Type} (c : Collab Tree)
    (l : List (NodeStatus Tree)) : List (Step Tree) :=
  match l with
  | [] => []
  | ss :: rest => buildStepSpec c ss :: buildStepSpecList c rest
termination_by structural l

end

/-- Projection of the spec-side builder, for rewriting. -/
theorem buildStepSpec_def {Tree : Type} (c : Collab Tree)
    (ns : NodeStatus Tree) :
    buildStepSpec c ns =
      ⟨ns.changeType, c.removeUnnecessaryParens ns.oldNode,
        c.removeUnnecessaryParens ns.newNode,
        buildStepSpecList c ns.substeps, c.print ns.newNode⟩ := by
  cases ns
  rfl

/-- Resetting a record keeps its `newNode`. -/
theorem NodeStatus.reset_newNode {Tree : Type} (ns : NodeStatus Tree) :
    ns.reset.newNode = ns.newNode := rfl

mutual

/-- The steps component of `addStep` appends exactly the record the
spec-side builder describes. -/
theorem addStep_fst {Tree : Type} (c : Collab Tree) (debug : Bool)
    (steps : List (Step Tree)) (ns : NodeStatus Tree) :
    (addStep c debug steps ns).1 = steps ++ [buildStepSpec c ns] := by
  cases ns with
  | mk ct old new ch subs =>
    rw [addStep, buildStepSpec]
    simp [addStepFold_fst c debug ([], []) subs]
termination_by sizeOf ns
decreasing_by cases ns; simp; try omega

/-- The steps component of the substep fold appends the spec-side records
of the folded statuses, in order. -/
theorem addStepFold_fst {Tree : Type} (c : Collab Tree) (debug : Bool)
    (acc : List (Step Tree) × List String) (l : List (NodeStatus Tree)) :
    (addStepFold c debug acc l).1 = acc.1 ++ buildStepSpecList c l := by
  match l with
  | [] => rw [addStepFold, buildStepSpecList]; simp
  | ss :: rest =>
    rw [addStepFold, buildStepSpecList]
    simp [addStepFold_fst c debug _ rest, addStep_fst c debug acc.1 ss]
termination_by sizeOf l
decreasing_by all_goals (simp; try omega)

end

/-- The chain of dispatcher results the driver loop walks through,
starting from a given status: index `k + 1` is `step` applied to the
(reset) tree of index `k`. -/
def driverStatusAt {Tree : Type} (c : Collab Tree) (ns : NodeStatus Tree) :
    Nat → NodeStatus Tree
  | 0 => ns
  | k + 1 => step c (driverStatusAt c ns k).reset.newNode

/-- A search collaborator stub that never fires, wrapping its input. -/
def noOpSearch : Nat → NodeStatus Nat := fun n => NodeStatus.noChange n

/-- A search collaborator stub over `Nat` trees that always fires,
swapping 0 and 1 forever (the spec's oscillating strategy pair, realized
by one total strategy). -/
def oscillateSearch : Nat → NodeStatus Nat :=
  fun n => ⟨"oscillate", n, 1 - n, true, []⟩

/-- A search collaborator stub that strictly decreases its `Nat` tree by
one whenever it fires and wraps 0 unchanged. -/
def decrementSearch : Nat → NodeStatus Nat :=
  fun n =>
    if n = 0 then NodeStatus.noChange 0
    else ⟨"decrement", n, n - 1, true, []⟩

/-- Collaborators over `Nat` trees with identity normalizers and an
always-firing oscillating first strategy. -/
def oscillatorCollab : Collab Nat :=
  { flattenOperands := id
    removeUnnecessaryParens := id
    hasUnsupportedNodes := fun _ => false
    print := toString
    printDebug := toString
    simplifyBasicsSearch := oscillateSearch
    simplifyDivisionSearch := noOpSearch
    simplifyFractionsSearch := noOpSearch
    evaluateArithmeticSearch := noOpSearch
    collectAndCombineSearch := noOpSearch
    breakUpNumeratorSearch := noOpSearch
    multiplyFractionsSearch := noOpSearch
    distributeSearch := noOpSearch
    evaluateFunctionsSearch := noOpSearch }

/-- Collaborators over `Nat` trees whose only firing strategy strictly
decreases the tree (a well-founded measure: the value itself). -/
def decrementCollab : Collab Nat :=
  { oscillatorCollab with simplifyBasicsSearch := decrementSearch }

/-- Collaborators over `Nat` trees whose flatten pass caps trees at 5, so
that flattening after paren-stripping is observable on the dispatcher's
returned tree. -/
def parenCollab : Collab Nat :=
  { oscillatorCollab with
    flattenOperands := fun n => min n 5
    simplifyBasicsSearch := fun n =>
      if n = 3 then ⟨"fire", 3, 7, true, []⟩ else NodeStatus.noChange n }

/-- Collaborators over `Nat` trees that declare every tree unsupported. -/
def unsupportedCollab : Collab Nat :=
  { oscillatorCollab with
    hasUnsupportedNodes := fun _ => true
    simplifyBasicsSearch := noOpSearch }

/-- Collaborators over `Nat` trees where no strategy ever fires. -/
def inertCollab : Collab Nat :=
  { oscillatorCollab with simplifyBasicsSearch := noOpSearch }

/-- Collaborators over `Nat` trees whose paren-stripping caps trees at 5
while flattening bumps 5 to 7, making the builder's stripping of the
stored `newNode` observably diverge from the rendered tree. -/
def renderCollab : Collab Nat :=
  { oscillatorCollab with
    flattenOperands := fun n => if n = 5 then 7 else n
    removeUnnecessaryParens := fun n => min n 5
    simplifyBasicsSearch := fun n =>
      if n = 5 then NodeStatus.noChange 5 else ⟨"fire", n, 9, true, []⟩ }

/-- Collaborators over `Nat` trees whose first strategy modifies the tree
(bumps it by one) while reporting no change. -/
def nudgeCollab : Collab Nat :=
  { oscillatorCollab with
    simplifyBasicsSearch := fun n => ⟨"NO_CHANGE", n, n + 1, false, []⟩ }

/-- The spec-side list builder is a `map`, so substeps are built
depth-first and in their original order. -/
theorem buildStepSpecList_eq_map {Tree : Type} (c : Collab Tree)
    (l : List (NodeStatus Tree)) :
    buildStepSpecList c l = l.map (buildStepSpec c) := by
  induction l with
  | nil => rw [buildStepSpecList]; rfl
  | cons ss rest ih => rw [buildStepSpecList]; simp [ih]

/-- The steps component of the while loop does not depend on `debug`. -/
theorem simplifyLoop_fst_debug {Tree : Type} (c : Collab Tree)
    (o : String) (d d' : Bool) (remaining : Nat) :
    ∀ ns steps, (simplifyLoop c d o ns steps remaining).1 =
      (simplifyLoop c d' o ns steps remaining).1 := by
  induction remaining with
  | zero =>
    intro ns steps
    rw [simplifyLoop, simplifyLoop]
    by_cases h : ns.hasChanged = true <;> simp [h]
  | succ r ih =>
    intro ns steps
    rw [simplifyLoop, simplifyLoop]
    by_cases h : ns.hasChanged = true <;>
      simp [h, addStep_fst, ih]

/-- The steps component of the driver does not depend on `debug`. -/
theorem stepThroughExpression_fst_debug {Tree : Type} (c : Collab Tree)
    (node : Tree) (d d' : Bool) :
    (stepThroughExpression c node d).1 =
      (stepThroughExpression c node d').1 := by
  rw [stepThroughExpression, stepThroughExpression]
  by_cases h : c.hasUnsupportedNodes node = true <;>
    simp [h, simplifyLoop_fst_debug c (c.print node) d d']

/-- Shifting the base of the dispatcher-result chain by one step. -/
theorem driverStatusAt_shift {Tree : Type} (c : Collab Tree)
    (ns : NodeStatus Tree) (k : Nat) :
    driverStatusAt c (step c ns.reset.newNode) k =
      driverStatusAt c ns (k + 1) := by
  induction k with
  | zero => rfl
  | succ k ih => rw [driverStatusAt, ih]; rfl

/-- When every dispatcher result in the chain up to the bound reports a
change, the while loop discards all accumulated steps and emits the
advisory diagnostic. -/
theorem simplifyLoop_exceeded {Tree : Type} (c : Collab Tree) (d : Bool)
    (o : String) (remaining : Nat) :
    ∀ ns steps,
      (∀ k, k ≤ remaining → (driverStatusAt c ns k).hasChanged = true) →
      (simplifyLoop c d o ns steps remaining).1 = [] ∧
        infiniteLoopMsg o ∈ (simplifyLoop c d o ns steps remaining).2 := by
  induction remaining with
  | zero =>
    intro ns steps hall
    have h0 : ns.hasChanged = true := hall 0 (by omega)
    rw [simplifyLoop]
    simp [h0]
  | succ r ih =>
    intro ns steps hall
    have h0 : ns.hasChanged = true := hall 0 (by omega)
    rw [simplifyLoop]
    have hshift : ∀ k, k ≤ r →
        (driverStatusAt c (step c ns.reset.newNode) k).hasChanged = true := by
      intro k hk
      rw [driverStatusAt_shift]
      exact hall (k + 1) (by omega)
    have hrec := ih (step c ns.reset.newNode) (addStep c d steps ns).1 hshift
    simp [h0]
    exact ⟨hrec.1, Or.inr hrec.2⟩

/-- When no search in the list ever fires, the search loop reports no
change. -/
theorem stepTrySearches_noFire {Tree : Type} (c : Collab Tree)
    (searches : List (Tree → NodeStatus Tree))
    (hnf : ∀ s ∈ searches, ∀ u, (s u).hasChanged = false) :
    ∀ node, (stepTrySearches c searches node).hasChanged = false := by
  induction searches with
  | nil => intro node; rw [stepTrySearches]; rfl
  | cons s rest ih =>
    intro node
    rw [stepTrySearches]
    have hs : (s node).hasChanged = false := hnf s (by simp) node
    simp [hs]
    exact ih (fun s hs u => hnf s (by simp [hs]) u) _

/-- A firing search loop strictly reduces any measure that the searches
strictly reduce when they fire, provided the normalizer passes never
increase it and non-firing searches wrap their input unchanged. -/
theorem stepTrySearches_measure {Tree : Type} (c : Collab Tree)
    (μ : Tree → Nat)
    (hflat : ∀ t, μ (c.flattenOperands t) ≤ μ t)
    (hstrip : ∀ t, μ (c.removeUnnecessaryParens t) ≤ μ t)
    (searches : List (Tree → NodeStatus Tree))
    (hdec : ∀ s ∈ searches, ∀ u,
      (s u).hasChanged = true → μ (s u).newNode < μ u)
    (hid : ∀ s ∈ searches, ∀ u,
      (s u).hasChanged = false → (s u).newNode = u) :
    ∀ node, (stepTrySearches c searches node).hasChanged = true →
      μ (stepTrySearches c searches node).newNode < μ node := by
  induction searches with
  | nil =>
    intro node h
    rw [stepTrySearches] at h
    simp [NodeStatus.noChange, NodeStatus.hasChanged] at h
  | cons s rest ih =>
    intro node h
    rw [stepTrySearches] at h ⊢
    by_cases hs : (s node).hasChanged = true
    · simp only [hs, if_true]
      calc μ (c.flattenOperands (c.removeUnnecessaryParens (s node).newNode))
          ≤ μ (c.removeUnnecessaryParens (s node).newNode) := hflat _
        _ ≤ μ (s node).newNode := hstrip _
        _ < μ node := hdec s (by simp) node hs
    · have hs' : (s node).hasChanged = false := by
        simpa using hs
      simp only [hs', Bool.false_eq_true, if_false] at h ⊢
      have heq : (s node).newNode = node := hid s (by simp) node hs'
      have hrec := ih (fun s h u => hdec s (by simp [h]) u)
        (fun s h u => hid s (by simp [h]) u)
        (c.flattenOperands (c.removeUnnecessaryParens (s node).newNode)) h
      calc μ (stepTrySearches c rest
            (c.flattenOperands
              (c.removeUnnecessaryParens (s node).newNode))).newNode
          < μ (c.flattenOperands
              (c.removeUnnecessaryParens (s node).newNode)) := hrec
        _ ≤ μ (c.removeUnnecessaryParens (s node).newNode) := hflat _
        _ ≤ μ (s node).newNode := hstrip _
        _ = μ node := by rw [heq]

/-- A firing dispatcher call strictly reduces any measure the individual
searches strictly reduce, under the same side conditions. -/
theorem step_measure {Tree : Type} (c : Collab Tree) (μ : Tree → Nat)
    (hflat : ∀ t, μ (c.flattenOperands t) ≤ μ t)
    (hstrip : ∀ t, μ (c.removeUnnecessaryParens t) ≤ μ t)
    (hdec : ∀ s ∈ simplificationTreeSearches c, ∀ u,
      (s u).hasChanged = true → μ (s u).newNode < μ u)
    (hid : ∀ s ∈ simplificationTreeSearches c, ∀ u,
      (s u).hasChanged = false → (s u).newNode = u) :
    ∀ node, (step c node).hasChanged = true →
      μ (step c node).newNode < μ node := by
  intro node h
  rw [step] at h ⊢
  have hmain := stepTrySearches_measure c μ hflat hstrip
    (simplificationTreeSearches c) hdec hid
    (c.removeUnnecessaryParens (c.flattenOperands node)) h
  calc μ (stepTrySearches c (simplificationTreeSearches c)
        (c.removeUnnecessaryParens (c.flattenOperands node))).newNode
      < μ (c.removeUnnecessaryParens (c.flattenOperands node)) := hmain
    _ ≤ μ (c.flattenOperands node) := hstrip _
    _ ≤ μ node := hflat _

/-- When every firing dispatcher call strictly reduces a `Nat` measure and
the current status's tree measures at most `remaining`, the driver's last
dispatcher result reports no change. -/
theorem driverLastStatus_noFire {Tree : Type} (c : Collab Tree)
    (μ : Tree → Nat)
    (hstep : ∀ t, (step c t).hasChanged = true →
      μ (step c t).newNode < μ t) :
    ∀ remaining ns, (ns.hasChanged = true → μ ns.newNode ≤ remaining) →
      (driverLastStatus c ns remaining).hasChanged = false := by
  intro remaining
  induction remaining with
  | zero =>
    intro ns hbound
    rw [driverLastStatus]
    simp only [NodeStatus.reset_newNode]
    by_cases h : ns.hasChanged = true
    · simp only [h, if_true]
      by_cases h2 : (step c ns.newNode).hasChanged = true
      · have hlt := hstep ns.newNode h2
        have hb := hbound h
        omega
      · simpa using h2
    · simp only [h]
      simpa using h
  | succ r ih =>
    intro ns hbound
    rw [driverLastStatus]
    simp only [NodeStatus.reset_newNode]
    by_cases h : ns.hasChanged = true
    · simp only [h, if_true]
      apply ih
      intro h2
      have hlt := hstep ns.newNode h2
      have hb := hbound h
      omega
    · simp only [h]
      simpa using h

/-- The never-firing stub indeed reports no change. -/
theorem noOpSearch_hasChanged (u : Nat) :
    (noOpSearch u).hasChanged = false := rfl

/-- The never-firing stub wraps its input. -/
theorem noOpSearch_newNode (u : Nat) : (noOpSearch u).newNode = u := rfl

/-- The decrementing stub strictly reduces the tree when it fires. -/
theorem decrementSearch_dec (u : Nat) :
    (decrementSearch u).hasChanged = true →
      (decrementSearch u).newNode < u := by
  intro h
  by_cases hu : u = 0
  · subst hu
    simp [decrementSearch, NodeStatus.noChange, NodeStatus.hasChanged] at h
  · simp [decrementSearch, hu]
    omega

/-- The decrementing stub wraps its input when it does not fire. -/
theorem decrementSearch_id (u : Nat) :
    (decrementSearch u).hasChanged = false →
      (decrementSearch u).newNode = u := by
  intro h
  by_cases hu : u = 0
  · subst hu; rfl
  · simp [decrementSearch, hu, NodeStatus.hasChanged] at h

/-- Every registered search of the decrementing collaborators strictly
reduces the tree value when it fires. -/
theorem decrementCollab_searches_dec :
    ∀ s ∈ simplificationTreeSearches decrementCollab, ∀ u : Nat,
      (s u).hasChanged = true → (s u).newNode < u := by
  intro s hs u h
  simp only [simplificationTreeSearches] at hs
  fin_cases hs
  · exact decrementSearch_dec u h
  all_goals exact Bool.noConfusion h

/-- Every registered search of the decrementing collaborators wraps its
input when it does not fire. -/
theorem decrementCollab_searches_id :
    ∀ s ∈ simplificationTreeSearches decrementCollab, ∀ u : Nat,
      (s u).hasChanged = false → (s u).newNode = u := by
  intro s hs u h
  simp only [simplificationTreeSearches] at hs
  fin_cases hs
  · exact decrementSearch_id u h
  all_goals rfl

/-- No registered search of the inert collaborators ever fires. -/
theorem inertCollab_searches_noFire :
    ∀ s ∈ simplificationTreeSearches inertCollab, ∀ u : Nat,
      (s u).hasChanged = false := by
  intro s hs u
  simp only [simplificationTreeSearches] at hs
  fin_cases hs
  all_goals rfl

/-- C1: for every input tree, if the driver's bound of 20 outer iterations
is exceeded (every dispatcher result in the loop's chain up to the bound
reports a change), `simplify` discards the entire accumulated output and
returns the empty sequence, emitting the advisory diagnostic on the
console channel; no partial trace is returned, and, the embedding being a
total function, nothing is thrown. -/
theorem stepThroughExpression_bound_exceeded_discards {Tree : Type}
    (c : Collab Tree) (node : Tree) (debug : Bool)
    (hsup : c.hasUnsupportedNodes node = false)
    (hexceed : ∀ k, k ≤ MAX_STEP_COUNT →
      (driverStatusAt c (step c node) k).hasChanged = true) :
    (stepThroughExpression c node debug).1 = [] ∧
      infiniteLoopMsg (c.print node) ∈
        (stepThroughExpression c node debug).2 := by
  have hrec := simplifyLoop_exceeded c debug (c.print node) MAX_STEP_COUNT
    (step c node) [] hexceed
  rw [stepThroughExpression]
  simp only [hsup, Bool.false_eq_true, if_false]
  refine ⟨hrec.1, ?_⟩
  simp only [List.mem_append]
  exact Or.inr hrec.2

/-- Witness for C1: the spec's oscillating strategy set, started on the
tree 0, returns no steps and logs the diagnostic. -/
theorem stepThroughExpression_bound_exceeded_discards_witness :
    (stepThroughExpression oscillatorCollab 0 false).1 = [] ∧
      infiniteLoopMsg (oscillatorCollab.print 0) ∈
        (stepThroughExpression oscillatorCollab 0 false).2 :=
  stepThroughExpression_bound_exceeded_discards oscillatorCollab 0 false rfl
    (fun k _ => by
      cases k with
      | zero => rfl
      | succ k => rfl)

/-- C4: the dispatcher tries exactly the nine registered strategies, in
the fixed source order (basics, division chains, fractions, arithmetic,
collect-and-combine, break-up-numerator, multiply-fractions, distribute,
evaluate-functions); the list is a constant of the collaborators, so the
order never varies with the input tree. -/
theorem step_fixed_strategy_order {Tree : Type} (c : Collab Tree)
    (node : Tree) :
    simplificationTreeSearches c =
      [c.simplifyBasicsSearch, c.simplifyDivisionSearch,
       c.simplifyFractionsSearch, c.evaluateArithmeticSearch,
       c.collectAndCombineSearch, c.breakUpNumeratorSearch,
       c.multiplyFractionsSearch, c.distributeSearch,
       c.evaluateFunctionsSearch] ∧
    (simplificationTreeSearches c).length = 9 ∧
    step c node = stepTrySearches c (simplificationTreeSearches c)
      (c.removeUnnecessaryParens (c.flattenOperands node)) :=
  ⟨rfl, rfl, rfl⟩

/-- C5: on input the detector declares unsupported, `simplify` returns the
empty sequence (and, being total, raises nothing). -/
theorem stepThroughExpression_unsupported_empty {Tree : Type}
    (c : Collab Tree) (node : Tree) (debug : Bool)
    (h : c.hasUnsupportedNodes node = true) :
    (stepThroughExpression c node debug).1 = [] := by
  rw [stepThroughExpression]
  simp [h]

/-- Witness for C5 at a collaborator set declaring everything
unsupported. -/
theorem stepThroughExpression_unsupported_empty_witness :
    (stepThroughExpression unsupportedCollab 0 false).1 = [] :=
  stepThroughExpression_unsupported_empty unsupportedCollab 0 false rfl

/-- C9: when a strategy reports no change, the dispatcher loop adopts that
strategy's returned tree, re-normalized (parens stripped, then
flattened), as the current tree for the remaining strategies and for the
eventual no-change result, rather than the tree the strategy was given. -/
theorem stepTrySearches_threads_unchanged_tree {Tree : Type}
    (c : Collab Tree) (s : Tree → NodeStatus Tree)
    (rest : List (Tree → NodeStatus Tree)) (u : Tree)
    (h : (s u).hasChanged = false) :
    stepTrySearches c (s :: rest) u =
      stepTrySearches c rest
        (c.flattenOperands (c.removeUnnecessaryParens (s u).newNode)) := by
  rw [stepTrySearches]
  simp [h]

/-- Witness for C9: a strategy that bumps the tree from 0 to 1 while
reporting no change propagates 1 into the rest of the loop. -/
theorem stepTrySearches_threads_unchanged_tree_witness :
    stepTrySearches nudgeCollab (nudgeCollab.simplifyBasicsSearch :: []) 0 =
      stepTrySearches nudgeCollab [] 1 :=
  stepTrySearches_threads_unchanged_tree nudgeCollab
    nudgeCollab.simplifyBasicsSearch [] 0 rfl

/-- C10: the debug flag does not affect the returned step sequence; it
only controls the console output component. -/
theorem stepThroughExpression_debug_irrelevant {Tree : Type}
    (c : Collab Tree) (node : Tree) :
    (stepThroughExpression c node true).1 =
      (stepThroughExpression c node false).1 :=
  stepThroughExpression_fst_debug c node true false

/-- Counterexample to C2 as stated: the decrementing collaborators satisfy
the claim's hypotheses for the measure "value of the tree" (every firing
search strictly decreases it, no search changes the tree without
reporting, the normalizers are the identity), yet starting from 25 the
20-iteration bound is overrun and the driver's final dispatcher call still
reports a change. -/
theorem measure_termination_cex :
    (∀ s ∈ simplificationTreeSearches decrementCollab, ∀ u : Nat,
      (s u).hasChanged = true → (s u).newNode < u) ∧
    (∀ s ∈ simplificationTreeSearches decrementCollab, ∀ u : Nat,
      (s u).hasChanged = false → (s u).newNode = u) ∧
    (∀ t : Nat, decrementCollab.flattenOperands t = t) ∧
    (∀ t : Nat, decrementCollab.removeUnnecessaryParens t = t) ∧
    (driverLastStatus decrementCollab (step decrementCollab 25)
      MAX_STEP_COUNT).hasChanged = true :=
  ⟨decrementCollab_searches_dec, decrementCollab_searches_id,
    fun _ => rfl, fun _ => rfl, by decide⟩

/-- C2 (amended): for strategies that strictly reduce a well-founded
`Nat`-valued measure whenever they report a change (with the normalizer
passes never increasing the measure and non-firing strategies wrapping
their input unchanged), `simplify` terminates — the embedding is a total
function — and, provided the measure of the input tree is within the
20-iteration bound, the final dispatcher call of the driver loop reports
`changed = false`; without the bound on the input's measure the safety
valve can fire first (see the counterexample). -/
theorem measure_termination_bounded {Tree : Type} (c : Collab Tree)
    (μ : Tree → Nat) (node : Tree)
    (hflat : ∀ t, μ (c.flattenOperands t) ≤ μ t)
    (hstrip : ∀ t, μ (c.removeUnnecessaryParens t) ≤ μ t)
    (hdec : ∀ s ∈ simplificationTreeSearches c, ∀ u,
      (s u).hasChanged = true → μ (s u).newNode < μ u)
    (hid : ∀ s ∈ simplificationTreeSearches c, ∀ u,
      (s u).hasChanged = false → (s u).newNode = u)
    (hbound : μ node ≤ MAX_STEP_COUNT) :
    (driverLastStatus c (step c node) MAX_STEP_COUNT).hasChanged
      = false := by
  have hstep := step_measure c μ hflat hstrip hdec hid
  apply driverLastStatus_noFire c μ hstep
  intro h
  have hlt := hstep node h
  omega

/-- Witness for the amended C2: the decrementing collaborators started on
the tree 5 reach a fixed point, the final dispatcher call reporting no
change. -/
theorem measure_termination_bounded_witness :
    (driverLastStatus decrementCollab (step decrementCollab 5)
      MAX_STEP_COUNT).hasChanged = false :=
  measure_termination_bounded decrementCollab (fun n => n) 5
    (fun _ => le_refl _) (fun _ => le_refl _)
    decrementCollab_searches_dec decrementCollab_searches_id (by decide)

/-- Counterexample to C3 as stated: the dispatcher's returned `after` tree
is not merely the firing strategy's `after` stripped of redundant
grouping — it is additionally flattened.  With a flatten pass capping
trees at 5 and identity paren-stripping, the strategy's stripped `after`
is 7 but the dispatcher returns 5. -/
theorem step_after_not_only_stripped_cex :
    (step parenCollab 3).newNode = 5 ∧
    parenCollab.removeUnnecessaryParens
      ((parenCollab.simplifyBasicsSearch
        (parenCollab.removeUnnecessaryParens
          (parenCollab.flattenOperands 3))).newNode) = 7 ∧
    (5 : Nat) ≠ 7 :=
  ⟨rfl, rfl, by omega⟩

/-- C3 (amended): the dispatcher returns the record of the first strategy
in priority order whose changed flag is true, with that strategy's
`after` tree stripped of redundant grouping and then flattened; once a
strategy has fired the result is independent of all later strategies; if
no strategy fires the loop returns a no-change record wrapping the final
normalized tree; and `step` is this loop run over the registered
strategies on the normalized input. -/
theorem step_first_match {Tree : Type} (c : Collab Tree)
    (s : Tree → NodeStatus Tree)
    (rest rest' : List (Tree → NodeStatus Tree)) (u node : Tree) :
    ((s u).hasChanged = true →
      stepTrySearches c (s :: rest) u =
        { s u with newNode :=
            c.flattenOperands (c.removeUnnecessaryParens (s u).newNode) } ∧
      stepTrySearches c (s :: rest) u = stepTrySearches c (s :: rest') u) ∧
    stepTrySearches c ([] : List (Tree → NodeStatus Tree)) u =
      NodeStatus.noChange u ∧
    step c node = stepTrySearches c (simplificationTreeSearches c)
      (c.removeUnnecessaryParens (c.flattenOperands node)) := by
  refine ⟨fun h => ⟨?_, ?_⟩, rfl, rfl⟩
  · rw [stepTrySearches]
    simp [h]
  · rw [stepTrySearches]
    conv_rhs => rw [stepTrySearches]
    simp [h]

/-- Witness for the amended C3: with the capped-flatten collaborators on
the tree 3, the fired first strategy makes the loop's result independent
of the strategies after it. -/
theorem step_first_match_witness :
    stepTrySearches parenCollab
        (parenCollab.simplifyBasicsSearch :: [noOpSearch]) 3 =
      stepTrySearches parenCollab
        (parenCollab.simplifyBasicsSearch :: []) 3 :=
  ((step_first_match parenCollab parenCollab.simplifyBasicsSearch
      [noOpSearch] [] 3 3).1 rfl).2

/-- C6: if no registered strategy ever reports a change, `simplify`
returns the empty sequence and the dispatcher reports no change on the
input tree; the input tree itself is a value of the embedding and is
untouched by construction. -/
theorem stepThroughExpression_noop_stable {Tree : Type} (c : Collab Tree)
    (node : Tree) (debug : Bool)
    (hnf : ∀ s ∈ simplificationTreeSearches c, ∀ u,
      (s u).hasChanged = false) :
    (stepThroughExpression c node debug).1 = [] ∧
    (step c node).hasChanged = false := by
  have hstep : ∀ t : Tree, (step c t).hasChanged = false := by
    intro t
    rw [step]
    exact stepTrySearches_noFire c _ hnf _
  refine ⟨?_, hstep node⟩
  rw [stepThroughExpression]
  by_cases h : c.hasUnsupportedNodes node = true
  · simp [h]
  · simp only [h, Bool.false_eq_true, if_false]
    rw [simplifyLoop]
    simp [hstep node]

/-- Witness for C6 at the inert collaborators on the tree 0. -/
theorem stepThroughExpression_noop_stable_witness :
    (stepThroughExpression inertCollab 0 false).1 = [] ∧
    (step inertCollab 0).hasChanged = false :=
  stepThroughExpression_noop_stable inertCollab 0 false
    inertCollab_searches_noFire

/-- C7: `addStep` appends exactly the record the specification's builder
describes: substeps are built recursively (depth-first, in their original
order, as a `map` of the builder), and both the `before` and `after`
trees are passed through the strip-redundant-grouping pass at build
time. -/
theorem addStep_builds_spec_records {Tree : Type} (c : Collab Tree)
    (debug : Bool) (steps : List (Step Tree)) (ns : NodeStatus Tree) :
    (addStep c debug steps ns).1 = steps ++ [buildStepSpec c ns] ∧
    (buildStepSpec c ns).substeps = ns.substeps.map (buildStepSpec c) ∧
    (buildStepSpec c ns).oldNode = c.removeUnnecessaryParens ns.oldNode ∧
    (buildStepSpec c ns).newNode = c.removeUnnecessaryParens ns.newNode := by
  refine ⟨addStep_fst c debug steps ns, ?_, ?_, ?_⟩ <;>
    rw [buildStepSpec_def]
  exact buildStepSpecList_eq_map c ns.substeps

/-- Counterexample to C8 as stated: the rendering stored in a Step Record
is `print` of the Change Record's `after` tree before the builder's own
paren-stripping, not of the stripped `after` stored in the record.  A
full `simplify` run on the render-mismatch collaborators yields one
record whose rendering is "7" while rendering its stored `after` gives
"5". -/
theorem addStep_asciimath_cex :
    ((stepThroughExpression renderCollab 3 false).1.map
      (fun r => (r.asciimath, renderCollab.print r.newNode))) =
      [("7", "5")] ∧ ("7" : String) ≠ "5" :=
  ⟨rfl, by decide⟩

/-- C8 (amended): the textual-rendering field of every record `addStep`
builds equals the Renderer applied to the Change Record's `after` tree as
received by the builder (before the builder's strip-redundant-grouping
pass); it equals the rendering of the stored `after` tree whenever
stripping leaves that tree unchanged. -/
theorem addStep_asciimath_prestrip {Tree : Type} (c : Collab Tree)
    (debug : Bool) (steps : List (Step Tree)) (ns : NodeStatus Tree) :
    (buildStepSpec c ns).asciimath = c.print ns.newNode ∧
    (addStep c debug steps ns).1 = steps ++ [buildStepSpec c ns] ∧
    (c.removeUnnecessaryParens ns.newNode = ns.newNode →
      (buildStepSpec c ns).asciimath =
        c.print (buildStepSpec c ns).newNode) := by
  refine ⟨?_, addStep_fst c debug steps ns, fun h => ?_⟩
  · rw [buildStepSpec_def]
  · rw [buildStepSpec_def]
    simp [h]

/-- Witness for the amended C8: with identity stripping the stored
rendering matches the stored `after` tree. -/
theorem addStep_asciimath_prestrip_witness :
    (buildStepSpec inertCollab ⟨"fire", 1, 2, true, []⟩).asciimath =
      inertCollab.print
        (buildStepSpec inertCollab ⟨"fire", 1, 2, true, []⟩).newNode :=
  (addStep_asciimath_prestrip inertCollab false []
    ⟨"fire", 1, 2, true, []⟩).2.2 rfl
